import Mathlib

set_option maxRecDepth 20000

/-! Shallow embedding of the streaming chat pipeline of the ask-my-garmin
front end: the sentinel extractor and stream consumer of
`src/components/ChatInterface.tsx`, the Markdown block and inline parsers of
the message renderer, and the chart sub-parser of
`src/components/ChartBlock.tsx`.  JavaScript strings are modelled as lists of
characters, fallible JavaScript code as `Option`/`Except`, and the DOM-level
state updates as explicit result records. -/

/-- JavaScript strings, modelled as lists of characters. -/
abbrev Chars := List Char

/-- JS `s.trim()`: strip whitespace from both ends. -/
def trimStr (s : Chars) : Chars :=
  ((s.dropWhile Char.isWhitespace).reverse.dropWhile Char.isWhitespace).reverse

/-- `pat` occurs in `s` starting at index `i` (the whole pattern fits). -/
def matchesAt (pat s : Chars) (i : Nat) : Bool :=
  (s.drop i).take pat.length == pat

/-- All positions of `s` at which `pat` occurs, in increasing order. -/
def occPositions (pat s : Chars) : List Nat :=
  (List.range (s.length + 1)).filter (matchesAt pat s)

/-- JS `s.lastIndexOf(pat)`: the greatest position at which `pat` occurs
(`none` models the JS return value `-1`). -/
def lastIndexOf? (pat s : Chars) : Option Nat :=
  (occPositions pat s).getLast?

/-- `pat` occurs somewhere in `s` (JS `s.includes(pat)`). -/
def containsSub (pat s : Chars) : Bool :=
  (List.range (s.length + 1)).any (matchesAt pat s)

/-- The control event carried by the stream sentinel (`MemoryStoredEvent`
in `src/types/index.ts`). -/
structure MemoryStoredEvent where
  id : Chars
  key : Chars
  content : Chars
  updated : Bool
  action : Chars
deriving DecidableEq, Repr

/-- Result of the sentinel extractor: the display text and the control
event, if fully received and parsed. -/
structure ExtractResult where
  content : Chars
  event : Option MemoryStoredEvent
deriving DecidableEq, Repr

/-- `MEMORY_SENTINEL_PREFIX` of `ChatInterface.tsx` (renamed): the marker
that introduces the trailing control event. -/
def memorySentinelMarker : Chars := "\n[MEMORY_STORED:".toList

/-- `extractMemorySentinel` of `ChatInterface.tsx`.  The JSON parse of the
payload (JS `JSON.parse` plus the unchecked cast to `MemoryStoredEvent`) is
abstracted as the `parseJson` argument: a successful parse-and-cast returns
`some`, a thrown parse error (caught by the source's `try`/`catch`) is
`none`. -/
def extractMemorySentinel (parseJson : Chars → Option MemoryStoredEvent)
    (text : Chars) : ExtractResult :=
  match lastIndexOf? memorySentinelMarker text with
  | none => ⟨text, none⟩
  | some idx =>
    let base := text.take idx
    let remainder := text.drop (idx + memorySentinelMarker.length)
    if ¬ List.isSuffixOf [']'] remainder then ⟨base, none⟩
    else
      let jsonStr := remainder.dropLast
      match parseJson jsonStr with
      | some event => ⟨base, some event⟩
      | none => ⟨base, none⟩

/-- `formatMemoryNotification` of `ChatInterface.tsx`. -/
def formatMemoryNotification (event : MemoryStoredEvent) : Chars :=
  let snippet :=
    if 100 < event.content.length then event.content.take 100 ++ "…".toList
    else event.content
  "\n\n[".toList ++ event.action ++ ": ".toList ++ event.key ++ " — ".toList
    ++ snippet ++ "]".toList

/-- The final assistant message content computed by `sendMessage` after the
stream completes (lines 121–144 of `ChatInterface.tsx`): the chunks are
accumulated by appending, the sentinel is extracted once at the end, and a
received event is formatted and appended to the display text.  Chunks are
modelled after text decoding, so a chunk is just a piece of the decoded
character stream. -/
def finalAssistantContent (parseJson : Chars → Option MemoryStoredEvent)
    (chunks : List Chars) : Chars :=
  let accumulated := chunks.foldl (· ++ ·) []
  let r := extractMemorySentinel parseJson accumulated
  match r.event with
  | some event => r.content ++ formatMemoryNotification event
  | none => r.content

/-- Message role (`Message` in `src/types/index.ts`). -/
inductive Role where
  | user
  | assistant
deriving DecidableEq, Repr

/-- A transcript entry (`Message` in `src/types/index.ts`). -/
structure Message where
  role : Role
  content : Chars
deriving DecidableEq, Repr

/-- How reading the response body plays out for one send:
the body is absent (`response.body` is null), the reader fails part way
through with an error carrying `msg`, or the whole chunk sequence is
delivered. -/
inductive BodyOutcome where
  | missing
  | readError (delivered : List Chars) (msg : Chars)
  | complete (chunks : List Chars)
deriving DecidableEq, Repr

/-- The observable part of the `/api/ask` response consumed by
`sendMessage`: the success flag and status of the HTTP response, the
optional `X-Session-Token` rotation header, the body text read on the
non-success path, and the streamed body. -/
structure AskResponse where
  ok : Bool
  status : Nat
  headerToken : Option Chars
  bodyText : Chars
  body : BodyOutcome
deriving DecidableEq, Repr

/-- The externally visible outcome of one `sendMessage` call: the final
transcript, the session token left in `sessionStorage`, the arguments of
the `onLoginRequired` invocations, and how often `onMemoryStored` fired. -/
structure SendOutcome where
  messages : List Message
  storedToken : Option Chars
  loginRequired : List Chars
  memoryStored : Nat
deriving DecidableEq, Repr

/-- `HTTP ${response.status}`, the fallback error text for an empty body. -/
def httpStatusText (status : Nat) : Chars := "HTTP ".toList ++ (Nat.repr status).toList

/-- `sendMessage` of `ChatInterface.tsx` (lines 75–154), as a function from
the pre-call state (`isStreaming`, `isConnected`, the stored session token,
the transcript) and the question to the outcome, given the response the
`/api/ask` endpoint produces.  Intermediate `setMessages` calls made while
streaming are superseded by the final one, so the outcome records the final
transcript; the body of the POST request itself carries no information
relevant to the outcome and is not modelled. -/
def sendMessage (parseJson : Chars → Option MemoryStoredEvent)
    (isStreaming isConnected : Bool) (storedToken : Option Chars)
    (messages : List Message) (question : Chars) (resp : AskResponse) :
    SendOutcome :=
  if trimStr question = [] ∨ isStreaming then ⟨messages, storedToken, [], 0⟩
  else if ¬ isConnected then ⟨messages, storedToken, [question], 0⟩
  else
    let updatedHistory := messages ++ [⟨Role.user, question⟩]
    -- the rotation header is applied before the status is inspected
    let token1 := match resp.headerToken with
      | some t => some t
      | none => storedToken
    if ¬ resp.ok then
      let errorText := if resp.bodyText = [] then httpStatusText resp.status
        else resp.bodyText
      ⟨updatedHistory ++ [⟨Role.assistant, "Error: ".toList ++ errorText⟩],
        token1, [], 0⟩
    else match resp.body with
      | BodyOutcome.missing =>
        ⟨updatedHistory ++ [⟨Role.assistant, "Error: No response body".toList⟩],
          token1, [], 0⟩
      | BodyOutcome.readError _ msg =>
        ⟨updatedHistory ++ [⟨Role.assistant, "Error: ".toList ++ msg⟩],
          token1, [], 0⟩
      | BodyOutcome.complete chunks =>
        let accumulated := chunks.foldl (· ++ ·) []
        let r := extractMemorySentinel parseJson accumulated
        match r.event with
        | some _ =>
          ⟨updatedHistory ++ [⟨Role.assistant, finalAssistantContent parseJson chunks⟩],
            token1, [], 1⟩
        | none =>
          ⟨updatedHistory ++ [⟨Role.assistant, finalAssistantContent parseJson chunks⟩],
            token1, [], 0⟩

/-- JS `s.split(c)` for a single-character separator: the runs of `s`
between occurrences of `c`.  Always returns at least one (possibly empty)
segment. -/
def splitChar (c : Char) (s : Chars) : List Chars :=
  s.foldr
    (fun x acc =>
      if x = c then [] :: acc
      else
        match acc with
        | s0 :: rest => (x :: s0) :: rest
        | [] => [[x]])
    [[]]

/-- A typed Markdown block (`Block` in the message renderer module). -/
inductive Block where
  | heading (level : Nat) (text : Chars)
  | paragraph (lines : List Chars)
  | hr
  | code (language : Chars) (content : Chars)
  | table (headers : List Chars) (rows : List (List Chars))
  | list (ordered : Bool) (items : List Chars)
  | blockquote (lines : List Chars)
deriving DecidableEq, Repr

/-- `parseRow` of the renderer module: `line.split('|').slice(1, -1)`, each
cell trimmed. -/
def parseRow (line : Chars) : List Chars :=
  (((splitChar '|' line).drop 1).dropLast).map trimStr

/-- The character class `[\s\-:|]` of the table-separator regex. -/
def isSepClassChar (c : Char) : Bool :=
  c.isWhitespace || c = '-' || c = ':' || c = '|'

/-- `isTableSeparator` of the renderer module: the regex
`^\|[\s\-:|]+\|` — a leading pipe, at least one class character, and a
further pipe (the end of the line is unconstrained).  Since `|` is itself in
the class, this holds exactly when a second pipe appears at index ≥ 2 with
only class characters before it. -/
def isTableSeparator (line : Chars) : Bool :=
  match line with
  | [] => false
  | c :: rest => c = '|' && ((rest.takeWhile isSepClassChar).drop 1).contains '|'

/-- The heading regex `^(#{1,3})\s+(.+)$` applied to one line: returns the
level and the captured text when it matches.  The leading `#`-run must have
length 1–3 (a longer run never matches, because the character after a
shorter `#`-prefix is another `#`), followed by at least one whitespace
character; `\s+` is greedy, so the captured text is everything after the
whitespace run — except that when nothing follows the run, `\s+` backs off
one character (if it can) and the capture is that final whitespace
character. -/
def headingMatch (line : Chars) : Option (Nat × Chars) :=
  let hashes := line.takeWhile (fun c => c = '#')
  let k := hashes.length
  if 1 ≤ k ∧ k ≤ 3 then
    let afterHash := line.drop k
    let ws := afterHash.takeWhile Char.isWhitespace
    let rest := afterHash.dropWhile Char.isWhitespace
    if ws.length = 0 then none
    else if rest ≠ [] then some (k, rest)
    else if 2 ≤ ws.length then some (k, ws.drop (ws.length - 1))
    else none
  else none

/-- The exclusion regex `^#{1,3}\s` used by `isParagraphLine`: a `#`-run of
length 1–3 followed immediately by a whitespace character. -/
def startsHashWs (line : Chars) : Bool :=
  let k := (line.takeWhile (fun c => c = '#')).length
  decide (1 ≤ k ∧ k ≤ 3) &&
    match (line.drop k).head? with
    | some c => c.isWhitespace
    | none => false

/-- The horizontal-rule test `/^[-*_]{3,}$/.test(line.trim())`. -/
def isHrLine (line : Chars) : Bool :=
  let t := trimStr line
  decide (3 ≤ t.length) && t.all (fun c => c = '-' || c = '*' || c = '_')

/-- The unordered-list test `/^[-*+]\s/.test(line)`. -/
def isUlLine (line : Chars) : Bool :=
  match line with
  | c :: d :: _ => (c = '-' || c = '*' || c = '+') && d.isWhitespace
  | _ => false

/-- The ordered-list test `/^\d+\.\s/.test(line)`: a maximal digit run (the
regex cannot match a shorter one, since the character after it would be a
digit rather than `.`), a dot, then a whitespace character. -/
def isOlLine (line : Chars) : Bool :=
  let ds := line.takeWhile Char.isDigit
  decide (1 ≤ ds.length) &&
    match line.drop ds.length with
    | c :: d :: _ => c = '.' && d.isWhitespace
    | _ => false

/-- `line.replace(/^\d+\.\s+/, '')` on a line already known to match
`isOlLine`: drop the digit run, the dot and the greedy whitespace run. -/
def stripOlMarker (line : Chars) : Chars :=
  ((line.dropWhile Char.isDigit).drop 1).dropWhile Char.isWhitespace

/-- `isParagraphLine` of the renderer module. -/
def isParagraphLine (line : Chars) : Bool :=
  decide (trimStr line ≠ []) && !startsHashWs line
    && !List.isPrefixOf "```".toList line
    && !(line.head? = some '|')
    && !isUlLine line && !isOlLine line
    && !List.isPrefixOf "> ".toList line
    && !isHrLine line

/-- `lines.join('\n')`. -/
def joinLines (ls : List Chars) : Chars :=
  match ls with
  | [] => []
  | l :: rest => rest.foldl (fun acc x => acc ++ '\n' :: x) l

/-- One pass of the `while` loop of `parseMarkdownBlocks`, consuming lines
from the front.  The JS loop advances an index `i`; here the consumed prefix
is dropped instead.  The loop body does not advance `i` when the paragraph
branch collects no line (which happens exactly for lines such as `"# "`
that match `^#{1,3}\s` but not the full heading regex), so the JS code can
loop forever; the `fuel` argument makes the embedding total and is chosen
large enough that any terminating JS execution is reproduced exactly. -/
def parseBlocksAux : Nat → List Chars → List Block
  | 0, _ => []
  | _ + 1, [] => []
  | fuel + 1, line :: rest =>
    if trimStr line = [] then parseBlocksAux fuel rest
    else
      match headingMatch line with
      | some (k, text) => Block.heading k text :: parseBlocksAux fuel rest
      | none =>
        if isHrLine line then Block.hr :: parseBlocksAux fuel rest
        else if List.isPrefixOf "```".toList line then
          let language := trimStr (line.drop 3)
          let codeLines := rest.takeWhile (fun l => ¬ List.isPrefixOf "```".toList l)
          let rest2 := rest.drop codeLines.length
          let rest3 := match rest2 with
            | [] => []
            | _ :: r => r
          Block.code language (joinLines codeLines) :: parseBlocksAux fuel rest3
        else if List.isPrefixOf "> ".toList line then
          let bq := (line :: rest).takeWhile (List.isPrefixOf "> ".toList)
          Block.blockquote (bq.map (fun l => l.drop 2)) ::
            parseBlocksAux fuel ((line :: rest).drop bq.length)
        else if line.head? = some '|' then
          let headers := parseRow line
          let rest2 := match rest with
            | l :: r => if isTableSeparator l then r else rest
            | [] => []
          let rowLines := rest2.takeWhile (fun l => l.head? = some '|')
          Block.table headers (rowLines.map parseRow) ::
            parseBlocksAux fuel (rest2.drop rowLines.length)
        else if isUlLine line then
          let items := (line :: rest).takeWhile isUlLine
          Block.list false (items.map (fun l => l.drop 2)) ::
            parseBlocksAux fuel ((line :: rest).drop items.length)
        else if isOlLine line then
          let items := (line :: rest).takeWhile isOlLine
          Block.list true (items.map stripOlMarker) ::
            parseBlocksAux fuel ((line :: rest).drop items.length)
        else
          let para := (line :: rest).takeWhile isParagraphLine
          let tail := parseBlocksAux fuel ((line :: rest).drop para.length)
          if para = [] then tail else Block.paragraph para :: tail

/-- `parseMarkdownBlocks` of the renderer module: split the content on
newlines and run the block loop.  Every terminating loop pass consumes at
least one line, so `lines.length + 1` fuel reproduces every terminating JS
execution. -/
def parseMarkdownBlocks (content : Chars) : List Block :=
  let lines := splitChar '\n' content
  parseBlocksAux (lines.length + 1) lines

/-- One inline span produced by `renderInline` of the renderer module:
plain text, or a bold / italic / inline-code / hyperlink element. -/
inductive Inline where
  | plain (s : Chars)
  | bold (s : Chars)
  | em (s : Chars)
  | code (s : Chars)
  | link (text url : Chars)
deriving DecidableEq, Repr

/-- The backtick character (code 96), the inline-code delimiter. -/
def backtickChar : Char := Char.ofNat 96

/-- Match one of the double-delimiter alternatives
(`\*\*[^*\n]+\*\*` or `__[^_\n]+__`) at the start of `s`: two copies of
`d`, a non-empty run of characters other than `d` and newline, then two
copies of `d`.  The run is maximal, which is exact for these patterns:
shrinking the run would put a non-`d` character where the closer must
start.  Returns the matched segment and the remainder. -/
def matchDelim2 (d : Char) (s : Chars) : Option (Chars × Chars) :=
  match s with
  | c1 :: c2 :: rest =>
    if c1 = d ∧ c2 = d then
      let content := rest.takeWhile (fun c => c ≠ d ∧ c ≠ '\n')
      let after := rest.drop content.length
      if content ≠ [] ∧ after.take 2 = [d, d] then
        some (d :: d :: (content ++ [d, d]), after.drop 2)
      else none
    else none
  | _ => none

/-- Match one of the single-delimiter alternatives (`\*[^*\n]+\*`,
`_[^_\n]+_` or the backtick form) at the start of `s`. -/
def matchDelim1 (d : Char) (s : Chars) : Option (Chars × Chars) :=
  match s with
  | c1 :: rest =>
    if c1 = d then
      let content := rest.takeWhile (fun c => c ≠ d ∧ c ≠ '\n')
      let after := rest.drop content.length
      if content ≠ [] ∧ after.head? = some d then
        some (d :: (content ++ [d]), after.drop 1)
      else none
    else none
  | _ => none

/-- Match the link alternative `\[[^\]\n]+\]\([^)\n]+\)` at the start of
`s`. -/
def matchLink (s : Chars) : Option (Chars × Chars) :=
  match s with
  | '[' :: rest =>
    let txt := rest.takeWhile (fun c => c ≠ ']' ∧ c ≠ '\n')
    let after := rest.drop txt.length
    if txt ≠ [] ∧ after.head? = some ']' then
      match after.drop 1 with
      | '(' :: rest2 =>
        let url := rest2.takeWhile (fun c => c ≠ ')' ∧ c ≠ '\n')
        let after2 := rest2.drop url.length
        if url ≠ [] ∧ after2.head? = some ')' then
          some ('[' :: (txt ++ ']' :: '(' :: (url ++ [')'])), after2.drop 1)
        else none
      | _ => none
    else none
  | _ => none

/-- Try the alternatives of the inline-marker regex of `renderInline` in
their source order at the start of `s`. -/
def matchInlineMarker (s : Chars) : Option (Chars × Chars) :=
  (matchDelim2 '*' s).orElse fun _ =>
  (matchDelim2 '_' s).orElse fun _ =>
  (matchDelim1 '*' s).orElse fun _ =>
  (matchDelim1 '_' s).orElse fun _ =>
  (matchDelim1 backtickChar s).orElse fun _ =>
  matchLink s

/-- The scan of JS `text.split(regex)` with a capturing group: move left to
right; at the leftmost position where an alternative matches, emit the text
accumulated so far (`pending`, kept reversed) and the captured separator,
and continue after it.  Every match consumes at least one character, so
`fuel` one larger than the text length reproduces the JS behaviour. -/
def splitSegsAux : Nat → Chars → Chars → List Chars
  | 0, pending, s => [pending.reverse ++ s]
  | _ + 1, pending, [] => [pending.reverse]
  | fuel + 1, pending, c :: rest =>
    match matchInlineMarker (c :: rest) with
    | some (m, rest2) => pending.reverse :: m :: splitSegsAux fuel [] rest2
    | none => splitSegsAux fuel (c :: pending) rest

/-- `text.split(inline marker regex)` as performed by `renderInline`. -/
def splitSegs (text : Chars) : List Chars :=
  splitSegsAux (text.length + 1) [] text

/-- The anchored link regex `^\[([^\]]+)\]\(([^)]+)\)$` of `renderInline`
(note: unlike the split regex, this one does not exclude newlines). -/
def linkExec (seg : Chars) : Option (Chars × Chars) :=
  match seg with
  | '[' :: rest =>
    let txt := rest.takeWhile (fun c => c ≠ ']')
    let after := rest.drop txt.length
    if txt ≠ [] ∧ after.head? = some ']' then
      match after.drop 1 with
      | '(' :: rest2 =>
        let url := rest2.takeWhile (fun c => c ≠ ')')
        let after2 := rest2.drop url.length
        if url ≠ [] ∧ after2 = [')'] then some (txt, url) else none
      | _ => none
    else none
  | _ => none

/-- The per-segment classification of `renderInline` (the body of
`segments.map`), in source order; an empty segment renders nothing
(`seg || null`). -/
def classifySeg (seg : Chars) : Option Inline :=
  if List.isPrefixOf ['*', '*'] seg ∧ List.isSuffixOf ['*', '*'] seg ∧ 4 < seg.length then
    some (Inline.bold ((seg.drop 2).dropLast.dropLast))
  else if List.isPrefixOf ['_', '_'] seg ∧ List.isSuffixOf ['_', '_'] seg ∧ 4 < seg.length then
    some (Inline.bold ((seg.drop 2).dropLast.dropLast))
  else if List.isPrefixOf [backtickChar] seg ∧ List.isSuffixOf [backtickChar] seg ∧ 2 < seg.length then
    some (Inline.code ((seg.drop 1).dropLast))
  else if List.isPrefixOf ['*'] seg ∧ List.isSuffixOf ['*'] seg ∧ 2 < seg.length
      ∧ ¬ List.isPrefixOf ['*', '*'] seg then
    some (Inline.em ((seg.drop 1).dropLast))
  else if List.isPrefixOf ['_'] seg ∧ List.isSuffixOf ['_'] seg ∧ 2 < seg.length
      ∧ ¬ List.isPrefixOf ['_', '_'] seg then
    some (Inline.em ((seg.drop 1).dropLast))
  else
    match linkExec seg with
    | some (txt, url) => some (Inline.link txt url)
    | none => if seg = [] then none else some (Inline.plain seg)

/-- `renderInline` of the renderer module: split on the inline-marker
regex; a single segment means no marker matched and the raw text is
returned; otherwise each segment is classified and empty segments render
nothing. -/
def renderInline (text : Chars) : List Inline :=
  let segments := splitSegs text
  if segments.length = 1 then [Inline.plain text]
  else segments.filterMap classifySeg

/-- A JavaScript value as produced by `JSON.parse`, extended with
`undefined` (the result of reading an absent property). -/
inductive JVal where
  | undef
  | null
  | bool (b : Bool)
  | num (n : Int)
  | str (s : Chars)
  | arr (elems : List JVal)
  | obj (fields : List (Chars × JVal))
deriving Repr

/-- The double-quote character (code 34). -/
def quoteChar : Char := Char.ofNat 34

/-- The backslash character (code 92). -/
def backslashChar : Char := Char.ofNat 92

/-- The opening-brace character (code 123). -/
def lbraceChar : Char := Char.ofNat 123

/-- The closing-brace character (code 125). -/
def rbraceChar : Char := Char.ofNat 125

/-- Numeric value of a digit run. -/
def digitsVal (ds : Chars) : Nat :=
  ds.foldl (fun a c => a * 10 + (c.toNat - 48)) 0

/-- A number continued by a fraction or exponent marker lies outside the
modelled JSON fragment. -/
def isNumTail (s : Chars) : Bool :=
  match s.head? with
  | some c => c = '.' || c = 'e' || c = 'E'
  | none => false

/-- Parse a JSON object key and the following colon: `"key" :` with
optional surrounding whitespace; escape sequences are outside the modelled
fragment. -/
def parseKeyColon (s0 : Chars) : Option (Chars × Chars) :=
  match s0.dropWhile Char.isWhitespace with
  | c :: rest =>
    if c = quoteChar then
      let cs := rest.takeWhile (fun x => x ≠ quoteChar ∧ x ≠ backslashChar)
      match rest.drop cs.length with
      | d :: rest2 =>
        if d = quoteChar then
          match rest2.dropWhile Char.isWhitespace with
          | ':' :: rest3 => some (cs, rest3)
          | _ => none
        else none
      | [] => none
    else none
  | [] => none

/-- The pending work of the JSON parser: parse one value, or continue an
array or object whose first elements are already in `acc`. -/
inductive JTask where
  | value (s : Chars)
  | arrayRest (s : Chars) (acc : List JVal)
  | objRest (s : Chars) (acc : List (Chars × JVal))

/-- Recursive worker of the JSON parser, structural on `fuel` so that it
evaluates by kernel reduction. -/
def parseJAux : Nat → JTask → Option (JVal × Chars)
  | 0, _ => none
  | fuel + 1, JTask.value s0 =>
    match s0.dropWhile Char.isWhitespace with
    | 'n' :: 'u' :: 'l' :: 'l' :: rest => some (JVal.null, rest)
    | 't' :: 'r' :: 'u' :: 'e' :: rest => some (JVal.bool true, rest)
    | 'f' :: 'a' :: 'l' :: 's' :: 'e' :: rest => some (JVal.bool false, rest)
    | c :: rest =>
      if c = quoteChar then
        let cs := rest.takeWhile (fun x => x ≠ quoteChar ∧ x ≠ backslashChar)
        match rest.drop cs.length with
        | d :: rest2 => if d = quoteChar then some (JVal.str cs, rest2) else none
        | [] => none
      else if c = '[' then
        match rest.dropWhile Char.isWhitespace with
        | ']' :: rest2 => some (JVal.arr [], rest2)
        | _ => do
          let (v, r) ← parseJAux fuel (JTask.value rest)
          parseJAux fuel (JTask.arrayRest r [v])
      else if c = lbraceChar then
        match rest.dropWhile Char.isWhitespace with
        | d :: _ =>
          if d = rbraceChar then
            some (JVal.obj [], (rest.dropWhile Char.isWhitespace).drop 1)
          else do
            let (k, r1) ← parseKeyColon rest
            let (v, r2) ← parseJAux fuel (JTask.value r1)
            parseJAux fuel (JTask.objRest r2 [(k, v)])
        | [] => none
      else if c = '-' then
        let ds := rest.takeWhile Char.isDigit
        if ds = [] ∨ isNumTail (rest.drop ds.length) then none
        else some (JVal.num (-(Int.ofNat (digitsVal ds))), rest.drop ds.length)
      else if c.isDigit then
        let ds := (c :: rest).takeWhile Char.isDigit
        if isNumTail ((c :: rest).drop ds.length) then none
        else some (JVal.num (Int.ofNat (digitsVal ds)), (c :: rest).drop ds.length)
      else none
    | [] => none
  | fuel + 1, JTask.arrayRest s0 acc =>
    match s0.dropWhile Char.isWhitespace with
    | ']' :: rest => some (JVal.arr acc.reverse, rest)
    | ',' :: rest => do
      let (v, r) ← parseJAux fuel (JTask.value rest)
      parseJAux fuel (JTask.arrayRest r (v :: acc))
    | _ => none
  | fuel + 1, JTask.objRest s0 acc =>
    match s0.dropWhile Char.isWhitespace with
    | c :: rest =>
      if c = rbraceChar then some (JVal.obj acc.reverse, rest)
      else if c = ',' then do
        let (k, r1) ← parseKeyColon rest
        let (v, r2) ← parseJAux fuel (JTask.value r1)
        parseJAux fuel (JTask.objRest r2 ((k, v) :: acc))
      else none
    | [] => none

/-- Model of JS `JSON.parse` on the JSON fragment this application emits:
objects, arrays, strings without escape sequences, integer numbers,
booleans and null.  Inputs outside the fragment are rejected (`none`, the
thrown-`SyntaxError` case); on the fragment the model agrees with
`JSON.parse`. -/
def jsonParse (s : Chars) : Option JVal := do
  let (v, rest) ← parseJAux (s.length + 1) (JTask.value s)
  if rest.dropWhile Char.isWhitespace = [] then some v else none

/-- Field lookup on a parsed object; an absent field reads as
`undefined`. -/
def lookupField (fields : List (Chars × JVal)) (name : Chars) : JVal :=
  match fields.find? (fun p => p.1 == name) with
  | some p => p.2
  | none => JVal.undef

/-- JS property read `v.name`: throws a TypeError (modelled as
`Except.error`) when the receiver is `undefined` or `null`; object fields
are looked up; any other receiver yields `undefined` (none of its
properties are relevant here). -/
def getProp : JVal → Chars → Except Unit JVal
  | JVal.undef, _ => Except.error ()
  | JVal.null, _ => Except.error ()
  | JVal.obj fields, name => Except.ok (lookupField fields name)
  | _, _ => Except.ok JVal.undef

/-- JS index read `v[i]`: throws on `undefined`/`null` receivers, reads
array elements (absent elements are `undefined`), yields `undefined`
otherwise. -/
def getIndex : JVal → Nat → Except Unit JVal
  | JVal.undef, _ => Except.error ()
  | JVal.null, _ => Except.error ()
  | JVal.arr xs, i => Except.ok (xs.getD i JVal.undef)
  | _, _ => Except.ok JVal.undef

/-- The value is the given string. -/
def isStrEq (v : JVal) (s : String) : Bool :=
  match v with
  | JVal.str cs => cs == s.toList
  | _ => false

/-- `Array.isArray`. -/
def isArrJ : JVal → Bool
  | JVal.arr _ => true
  | _ => false

/-- `isChartData` of `ChartBlock.tsx`: the JS `typeof` test admits objects,
arrays and `null`; `null` is rejected explicitly, and on an array receiver
the three property reads all yield `undefined` so the conjunction fails;
hence exactly plain objects with the right `type` tag and array-valued
`labels` and `datasets` pass.  Note that the entries of `datasets` are not
inspected. -/
def isChartData (v : JVal) : Bool :=
  match v with
  | JVal.obj fields =>
    let t := lookupField fields "type".toList
    (isStrEq t "bar" || isStrEq t "line" || isStrEq t "doughnut")
      && isArrJ (lookupField fields "labels".toList)
      && isArrJ (lookupField fields "datasets".toList)
  | _ => false

/-- JS `x ?? 0`. -/
def nullishZero (v : JVal) : JVal :=
  match v with
  | JVal.undef => JVal.num 0
  | JVal.null => JVal.num 0
  | w => w

/-- The elements of a value known to be an array. -/
def arrElems : JVal → List JVal
  | JVal.arr xs => xs
  | _ => []

/-- The inner loop of the `rows` computation of `ChartBlock.tsx` (lines
54–60) for label index `i`: for each dataset, read `ds.label` (the entry
key) and then `ds.data[i] ?? 0`; the index read throws when `ds.data` is
`undefined` or `null`. -/
def chartRowCells (datasets : List JVal) (i : Nat) : Except Unit (List JVal) :=
  datasets.mapM (fun ds => do
    let _ ← getProp ds "label".toList
    let d ← getProp ds "data".toList
    let x ← getIndex d i
    pure (nullishZero x))

/-- The `rows` computation of `ChartBlock.tsx`: one row per label. -/
def chartRows (labels datasets : List JVal) : Except Unit (List (JVal × List JVal)) :=
  labels.enum.mapM (fun p => do
    let cells ← chartRowCells datasets p.1
    pure (p.2, cells))

/-- The `allValues` computation (line 62): `datasets.flatMap(ds => ds.data)`
reads `ds.data` of every dataset; only these reads can throw, and the
flattened numbers feed only the presentational bar widths, so just the
reads are recorded. -/
def chartAllValues (datasets : List JVal) : Except Unit (List JVal) :=
  datasets.mapM (fun ds => getProp ds "data".toList)

/-- The dataset labels read by the table header (and legend). -/
def chartDatasetLabels (datasets : List JVal) : Except Unit (List JVal) :=
  datasets.mapM (fun ds => getProp ds "label".toList)

/-- What `ChartBlock` renders: the raw-text fallback block, a bar chart, or
the label×dataset table used for line/doughnut charts.  Rows pair each
label with the per-dataset values `ds.data[i] ?? 0`; the bar widths are a
presentational function of these values and the title renders only when
truthy, so the raw values are recorded. -/
inductive ChartOutcome where
  | fallback (raw : Chars)
  | bar (title : JVal) (rows : List (JVal × List JVal)) (legend : Bool)
  | table (title : JVal) (headers : List JVal) (rows : List (JVal × List JVal))
deriving Repr

/-- `ChartBlock` of `ChartBlock.tsx` as a function from the fenced block
content to the rendered outcome; `Except.error` models an exception
escaping the component boundary — the source's `try`/`catch` covers only
the JSON parse and the shape check, not the subsequent `rows`/`allValues`
computations.  The bar and table branches re-read the same `ds.label` and
`ds.data[i]` properties recorded in `rows`, so they add no further failure
cases. -/
def chartBlock (content : Chars) : Except Unit ChartOutcome :=
  match jsonParse content with
  | none => Except.ok (ChartOutcome.fallback content)
  | some v =>
    if ¬ isChartData v then Except.ok (ChartOutcome.fallback content)
    else
      match v with
      | JVal.obj fields =>
        let labels := arrElems (lookupField fields "labels".toList)
        let datasets := arrElems (lookupField fields "datasets".toList)
        let title := lookupField fields "title".toList
        do
          let rows ← chartRows labels datasets
          let _ ← chartAllValues datasets
          if isStrEq (lookupField fields "type".toList) "bar" then
            pure (ChartOutcome.bar title rows (decide (1 < datasets.length)))
          else do
            let headers ← chartDatasetLabels datasets
            pure (ChartOutcome.table title headers rows)
      | _ => Except.ok (ChartOutcome.fallback content)

theorem mem_of_getLast?_eq : ∀ (l : List Nat) (a : Nat), l.getLast? = some a → a ∈ l
  | [], _, h => by simp at h
  | [x], a, h => by
    simp only [List.getLast?_singleton, Option.some.injEq] at h
    simp [h]
  | x :: y :: xs, a, h => by
    rw [List.getLast?_cons_cons] at h
    exact List.mem_cons_of_mem x (mem_of_getLast?_eq (y :: xs) a h)

theorem two_mem_ne_length_le_one (l : List Nat) (a b : Nat) (ha : a ∈ l) (hb : b ∈ l)
    (hne : a ≠ b) (hlen : l.length ≤ 1) : False := by
  match l with
  | [] => simp at ha
  | [x] =>
    simp only [List.mem_singleton] at ha hb
    exact hne (ha.trans hb.symm)
  | x :: y :: xs => simp at hlen

theorem mem_occPositions (pat s : Chars) (i : Nat) :
    i ∈ occPositions pat s ↔ i < s.length + 1 ∧ matchesAt pat s i = true := by
  simp [occPositions, List.mem_filter, List.mem_range]

theorem matchesAt_take (pat s : Chars) (n j : Nat) (hp : pat ≠ [])
    (h : matchesAt pat (s.take n) j = true) :
    matchesAt pat s j = true ∧ j + pat.length ≤ n := by
  unfold matchesAt at h ⊢
  rw [beq_iff_eq] at h
  rw [List.drop_take, List.take_take] at h
  have hlen := congrArg List.length h
  simp only [List.length_take, List.length_drop] at hlen
  have hplen : 0 < pat.length := List.length_pos.mpr hp
  have hmin : pat.length ⊓ (n - j) = pat.length := by omega
  rw [hmin] at h
  refine ⟨by rw [beq_iff_eq]; exact h, by omega⟩

theorem lastIndexOf?_eq_none_of_not_contains (pat s : Chars)
    (h : containsSub pat s = false) : lastIndexOf? pat s = none := by
  unfold lastIndexOf?
  rw [List.getLast?_eq_none_iff]
  unfold occPositions
  rw [List.filter_eq_nil_iff]
  intro i hi hm
  unfold containsSub at h
  have : (List.range (s.length + 1)).any (matchesAt pat s) = true :=
    List.any_eq_true.mpr ⟨i, hi, hm⟩
  rw [h] at this
  exact Bool.false_ne_true this

theorem not_contains_of_occPositions_nil (pat s : Chars)
    (h : occPositions pat s = []) : containsSub pat s = false := by
  by_contra hc
  rw [Bool.not_eq_false, containsSub, List.any_eq_true] at hc
  obtain ⟨i, hi, hm⟩ := hc
  have : i ∈ occPositions pat s := List.mem_filter.mpr ⟨hi, hm⟩
  rw [h] at this
  simp at this

theorem extractMemorySentinel_content_eq (parseJson : Chars → Option MemoryStoredEvent)
    (text : Chars) :
    (extractMemorySentinel parseJson text).content =
      (match lastIndexOf? memorySentinelMarker text with
       | none => text
       | some idx => text.take idx) := by
  unfold extractMemorySentinel
  cases lastIndexOf? memorySentinelMarker text with
  | none => rfl
  | some idx =>
    dsimp only
    split
    · rfl
    · cases parseJson ((text.drop (idx + memorySentinelMarker.length)).dropLast) <;> rfl

theorem foldl_append_eq_flatten (l : List Chars) (acc : Chars) :
    l.foldl (· ++ ·) acc = acc ++ l.flatten := by
  induction l generalizing acc with
  | nil => simp
  | cons x xs ih => simp [List.foldl_cons, ih]

/-- C4. The final displayed assistant message is a function of the
concatenation of the chunks only: the stream loop of `sendMessage` builds
`accumulated` purely by appending, and the sentinel extraction and memory
notification run once on the result, so any two chunk sequences with the
same concatenation — in particular the sentinel marker split across two
chunks versus delivered in one — produce the same final output. -/
theorem finalAssistantContent_of_flatten (parseJson : Chars → Option MemoryStoredEvent)
    (chunks1 chunks2 : List Chars) (h : chunks1.flatten = chunks2.flatten) :
    finalAssistantContent parseJson chunks1 = finalAssistantContent parseJson chunks2 := by
  unfold finalAssistantContent
  rw [foldl_append_eq_flatten, foldl_append_eq_flatten, h]

theorem finalAssistantContent_of_flatten_inst :
    finalAssistantContent (fun _ => none)
        ["\n[MEM".toList, "ORY_STORED:\x7b\"key\":\"k\"\x7d]".toList] =
      finalAssistantContent (fun _ => none)
        [("\n[MEM".toList ++ "ORY_STORED:\x7b\"key\":\"k\"\x7d]".toList)] :=
  finalAssistantContent_of_flatten (fun _ => none) _ _ (by simp)

/-- C6. When the sentinel marker does not occur in the accumulated text,
the extractor returns the full input unchanged with no event, and the final
displayed text of such a stream is the concatenation verbatim. -/
theorem extractMemorySentinel_marker_free (parseJson : Chars → Option MemoryStoredEvent)
    (text : Chars) (h : containsSub memorySentinelMarker text = false) :
    extractMemorySentinel parseJson text = ⟨text, none⟩ ∧
      finalAssistantContent parseJson [text] = text := by
  have hnone := lastIndexOf?_eq_none_of_not_contains memorySentinelMarker text h
  have hex : extractMemorySentinel parseJson text = ⟨text, none⟩ := by
    unfold extractMemorySentinel
    rw [hnone]
  refine ⟨hex, ?_⟩
  unfold finalAssistantContent
  rw [foldl_append_eq_flatten]
  simp only [List.flatten, List.append_nil, List.nil_append, hex]

theorem extractMemorySentinel_marker_free_inst :
    extractMemorySentinel (fun _ => none) "plain answer".toList =
      ⟨"plain answer".toList, none⟩ :=
  (extractMemorySentinel_marker_free (fun _ => none) "plain answer".toList (by decide)).1

/-- C7. When the marker is present (at its last occurrence `idx`) and the
remainder ends in the terminator `]`, the extractor parses the payload
between them and returns it as the event — so a parse failure yields
`event = none` — while the display text is in every case the text strictly
before the marker, excluding the whole marker-to-terminator region. -/
theorem extractMemorySentinel_complete_sentinel (parseJson : Chars → Option MemoryStoredEvent)
    (text : Chars) (idx : Nat)
    (h1 : lastIndexOf? memorySentinelMarker text = some idx)
    (h2 : List.isSuffixOf [']'] (text.drop (idx + memorySentinelMarker.length)) = true) :
    extractMemorySentinel parseJson text =
      ⟨text.take idx,
        parseJson ((text.drop (idx + memorySentinelMarker.length)).dropLast)⟩ := by
  unfold extractMemorySentinel
  rw [h1]
  dsimp only
  rw [h2]
  simp only [not_true, if_false]
  cases parseJson ((text.drop (idx + memorySentinelMarker.length)).dropLast) <;> rfl

theorem extractMemorySentinel_complete_sentinel_inst :
    extractMemorySentinel (fun _ => none) "hi\n[MEMORY_STORED:oops]".toList =
      ⟨"hi".toList, none⟩ :=
  (extractMemorySentinel_complete_sentinel (fun _ => none)
      "hi\n[MEMORY_STORED:oops]".toList 2 (by decide) (by decide)).trans (by decide)

/-- C2 fails as stated: the extractor hides only the text from the *last
complete* occurrence of the marker onward.  A stream prefix ending in a
partial marker (here `"\n[MEM"`, a proper prefix of the marker) is returned
as display content verbatim, and when the marker occurs twice the earlier
complete occurrence stays in the display content. -/
theorem extractMemorySentinel_leaks_partial_marker :
    (extractMemorySentinel (fun _ => none) "answer\n[MEM".toList).content
        = "answer\n[MEM".toList ∧
      List.isSuffixOf "\n[MEM".toList
        ((extractMemorySentinel (fun _ => none) "answer\n[MEM".toList).content) = true ∧
      List.isPrefixOf "\n[MEM".toList memorySentinelMarker = true ∧
      "\n[MEM".toList ≠ memorySentinelMarker ∧
      containsSub memorySentinelMarker
        ((extractMemorySentinel (fun _ => none)
          "a\n[MEMORY_STORED:\x7b\x7d]b\n[MEMORY_STORED:".toList).content) = true :=
  ⟨by decide, by decide, by decide, by decide, by decide⟩

/-- C2 amended: when the complete marker occurs at most once in the
accumulated text, the display content contains no complete marker
occurrence (partial marker prefixes at the end of the text, and earlier
occurrences when the marker repeats, are not hidden). -/
theorem extractMemorySentinel_single_marker_clean
    (parseJson : Chars → Option MemoryStoredEvent) (text : Chars)
    (h : (occPositions memorySentinelMarker text).length ≤ 1) :
    containsSub memorySentinelMarker
      ((extractMemorySentinel parseJson text).content) = false := by
  rw [extractMemorySentinel_content_eq]
  cases hL : lastIndexOf? memorySentinelMarker text with
  | none =>
    dsimp only
    have hnil : occPositions memorySentinelMarker text = [] := by
      rw [← List.getLast?_eq_none_iff]
      exact hL
    exact not_contains_of_occPositions_nil _ _ hnil
  | some idx =>
    dsimp only
    by_contra hc
    rw [Bool.not_eq_false, containsSub, List.any_eq_true] at hc
    obtain ⟨j, _, hjm⟩ := hc
    have hmark : memorySentinelMarker ≠ [] := by decide
    obtain ⟨hjm', hle⟩ := matchesAt_take memorySentinelMarker text idx j hmark hjm
    have hidxmem := mem_of_getLast?_eq _ _ hL
    have hidx := (mem_occPositions _ _ _).mp hidxmem
    have hmlen : 0 < memorySentinelMarker.length := by decide
    have hjmem : j ∈ occPositions memorySentinelMarker text :=
      (mem_occPositions _ _ _).mpr ⟨by omega, hjm'⟩
    exact two_mem_ne_length_le_one _ j idx hjmem hidxmem (by omega) h

theorem extractMemorySentinel_single_marker_clean_inst :
    containsSub memorySentinelMarker
      ((extractMemorySentinel (fun _ => none)
        "hello\n[MEMORY_STORED:\x7b\x7d]".toList).content) = false :=
  extractMemorySentinel_single_marker_clean (fun _ => none)
    "hello\n[MEMORY_STORED:\x7b\x7d]".toList (by decide)

/-- C1, evaluated at the failing input: a send of "my question" while
connected whose response is a non-success 401 with body "Session expired".
`sendMessage` has no 401-specific branch — the `!response.ok` path throws
and the catch block appends an error bubble — so the user's question stays
appended to the transcript, an `Error: Session expired` assistant message
is appended, and no callback is invoked, contradicting the specified
rollback-and-replay behaviour. -/
theorem sendMessage_401_appends_error :
    sendMessage (fun _ => none) false true none [] "my question".toList
        ⟨false, 401, none, "Session expired".toList, BodyOutcome.missing⟩ =
      ⟨[⟨Role.user, "my question".toList⟩,
        ⟨Role.assistant, "Error: Session expired".toList⟩], none, [], 0⟩ := by
  decide

/-- C8. The `X-Session-Token` rotation header is applied to the stored
token before the status is inspected or the body is touched, so whenever
the response carries the header the new token is persisted — for every
status (success or not) and every body outcome (absent, failing mid-read,
or complete). -/
theorem sendMessage_persists_rotated_token
    (parseJson : Chars → Option MemoryStoredEvent) (storedToken : Option Chars)
    (messages : List Message) (question : Chars) (resp : AskResponse) (t : Chars)
    (hq : trimStr question ≠ []) (ht : resp.headerToken = some t) :
    (sendMessage parseJson false true storedToken messages question resp).storedToken
      = some t := by
  unfold sendMessage
  rw [if_neg (by simp [hq]), if_neg (by simp)]
  simp only [ht]
  split
  · rfl
  · split
    · rfl
    · rfl
    · split <;> rfl

theorem sendMessage_persists_rotated_token_inst :
    (sendMessage (fun _ => none) false true none [] "hi".toList
        ⟨false, 500, some "rotated".toList, "boom".toList, BodyOutcome.missing⟩).storedToken
      = some "rotated".toList :=
  sendMessage_persists_rotated_token (fun _ => none) none [] "hi".toList
    ⟨false, 500, some "rotated".toList, "boom".toList, BodyOutcome.missing⟩
    "rotated".toList (by decide) rfl

/-- C9. The block parser meets the spec's reference examples: the empty
input parses to no blocks, `"# Title"` to a single level-1 heading, and the
three-line pipe table to a single table block with headers `A`,`B` and one
row `1`,`2`. -/
theorem parseMarkdownBlocks_reference_examples :
    parseMarkdownBlocks "".toList = [] ∧
      parseMarkdownBlocks "# Title".toList = [Block.heading 1 "Title".toList] ∧
      parseMarkdownBlocks "| A | B |\n|---|---|\n| 1 | 2 |".toList =
        [Block.table ["A".toList, "B".toList] [["1".toList, "2".toList]]] :=
  ⟨by decide, by decide, by decide⟩

theorem splitChar_cons (c x : Char) (xs : Chars) :
    splitChar c (x :: xs) =
      if x = c then [] :: splitChar c xs
      else
        match splitChar c xs with
        | s0 :: rest => (x :: s0) :: rest
        | [] => [[x]] := rfl

theorem splitChar_ne_nil (c : Char) (s : Chars) : splitChar c s ≠ [] := by
  induction s with
  | nil => simp [splitChar]
  | cons x xs ih =>
    rw [splitChar_cons]
    split
    · simp
    · cases h : splitChar c xs with
      | nil => simp
      | cons s0 rest => simp

theorem splitChar_append_sep (c : Char) (a b : Chars) :
    splitChar c (a ++ c :: b) = splitChar c a ++ splitChar c b := by
  induction a with
  | nil =>
    rw [List.nil_append, splitChar_cons, if_pos rfl]
    rfl
  | cons x xs ih =>
    by_cases hx : x = c
    · subst hx
      rw [List.cons_append, splitChar_cons, if_pos rfl, splitChar_cons, if_pos rfl, ih]
      simp
    · rw [List.cons_append, splitChar_cons, if_neg hx, splitChar_cons, if_neg hx, ih]
      cases h : splitChar c xs with
      | nil => exact absurd h (splitChar_ne_nil c xs)
      | cons s0 rest => simp

theorem splitChar_not_mem (c : Char) (a : Chars) (h : c ∉ a) : splitChar c a = [a] := by
  induction a with
  | nil => rfl
  | cons x xs ih =>
    have hx : ¬ x = c := fun hxc => h (hxc ▸ List.mem_cons_self x xs)
    rw [splitChar_cons, if_neg hx, ih (fun hc => h (List.mem_cons_of_mem x hc))]

/-- C10. A pipe-led table row is cut at every `|`; `parseRow` drops the
first and last resulting segments — the text before the first pipe and
after the last pipe — and trims the rest.  Hence the cells are exactly the
trimmed segments strictly between the first and last pipe of the line, and
a row that does not end with a pipe silently loses its final cell. -/
theorem parseRow_between_first_last_pipe (a m b : Chars)
    (ha : '|' ∉ a) (hb : '|' ∉ b) :
    parseRow (a ++ '|' :: (m ++ '|' :: b)) = (splitChar '|' m).map trimStr := by
  unfold parseRow
  rw [splitChar_append_sep, splitChar_not_mem _ a ha,
    splitChar_append_sep, splitChar_not_mem _ b hb]
  simp [List.dropLast_concat]

theorem parseRow_between_first_last_pipe_inst :
    parseRow "| 1 | 2".toList = ["1".toList] :=
  (parseRow_between_first_last_pipe [] " 1 ".toList " 2".toList
      (by decide) (by decide)).trans (by decide)


/-- C5 fails as stated: the italic check of `renderInline` is
`seg.length > 2`, so the three-character segment `*a*` is matched and
rendered as an italic span — the minimum marked-segment length for italics
is three characters, not four. -/
theorem renderInline_matches_three_char_italic :
    renderInline "*a*".toList = [Inline.em ['a']] ∧ ("*a*".toList).length < 4 :=
  ⟨by decide, by decide⟩

theorem classifySeg_em_nonempty (seg : Chars) (s : Chars)
    (h : classifySeg seg = some (Inline.em s)) : s ≠ [] := by
  unfold classifySeg at h
  split at h
  · simp at h
  · split at h
    · simp at h
    · split at h
      · simp at h
      · split at h
        · rename_i hcond
          obtain ⟨-, -, hlen, -⟩ := hcond
          simp only [Option.some.injEq, Inline.em.injEq] at h
          intro hs
          rw [hs] at h
          have hl := congrArg List.length h
          simp only [List.length_dropLast, List.length_drop, List.length_tail, List.length_nil] at hl
          omega
        · split at h
          · rename_i hcond
            obtain ⟨-, -, hlen, -⟩ := hcond
            simp only [Option.some.injEq, Inline.em.injEq] at h
            intro hs
            rw [hs] at h
            have hl := congrArg List.length h
            simp only [List.length_dropLast, List.length_drop, List.length_tail, List.length_nil] at hl
            omega
          · split at h
            · simp at h
            · split at h <;> simp at h

/-- C5 amended: `renderInline` matches an italic marker pair only when the
whole marked segment is at least three characters long — one or more
characters of content between the markers — so empty markers are not
matched and pass through as plain text.  Stated as: every italic span the
renderer emits has non-empty content (its segment is `*s*` or `_s_` with
`s` non-empty). -/
theorem renderInline_italic_content_nonempty (line : Chars) (s : Chars)
    (h : Inline.em s ∈ renderInline line) : s ≠ [] := by
  have h' : Inline.em s ∈
      (if (splitSegs line).length = 1 then [Inline.plain line]
       else (splitSegs line).filterMap classifySeg) := h
  by_cases hone : (splitSegs line).length = 1
  · rw [if_pos hone] at h'
    simp at h'
  · rw [if_neg hone] at h'
    obtain ⟨seg, -, hc⟩ := List.mem_filterMap.mp h'
    exact classifySeg_em_nonempty seg s hc

theorem renderInline_italic_content_nonempty_inst : (['a', 'b'] : Chars) ≠ [] :=
  renderInline_italic_content_nonempty "*ab*".toList ['a', 'b'] (by decide)

/-- C3, evaluated at the failing input
`{"type":"bar","labels":["A"],"datasets":[{"label":"x"}]}`: the input is
valid JSON and passes `isChartData` (which checks only that `labels` and
`datasets` are arrays, not the dataset entries), yet `ChartBlock` is not
total on it — the unguarded index read `ds.data[i]` in the `rows`
computation throws a TypeError that escapes the component boundary instead
of degrading to the raw-text fallback block. -/
theorem chartBlock_throws_on_missing_data_array :
    (jsonParse
        "\x7b\"type\":\"bar\",\"labels\":[\"A\"],\"datasets\":[\x7b\"label\":\"x\"\x7d]\x7d".toList).map
        isChartData = some true ∧
      chartBlock
        "\x7b\"type\":\"bar\",\"labels\":[\"A\"],\"datasets\":[\x7b\"label\":\"x\"\x7d]\x7d".toList
        = Except.error () :=
  ⟨rfl, rfl⟩
